import Mathlib

/-!
Verification development for the insider-scan trade-record reconciliation core.

This file gives a shallow embedding, in Lean, of the reconciliation engine of
the repository (src/insider_scan): the fingerprint generator
(merge.sha1_event_id), the exact/fuzzy merge pipeline (merge.merge_and_dedupe),
the filing matcher (sources/sec_edgar.ticker_to_cik, find_form4_filing_near,
build_filing_index_url) and the confidence classifier (cli.enrich_sec_links).

Modelling conventions:
- Python dates are embedded as day numbers (integers, days since 1970-01-01);
  pandas Timestamp subtraction .days is exact integer day distance.
- Python floats (shares, price, value_usd) are embedded as rationals; pandas
  NaN (and None) are embedded as Option.none, matching the pd.isna tests the
  code performs.  numpy round-half-to-even on a float is embedded as
  round-half-to-even on the rational.
- pandas sort_values with a list of keys uses a stable lexicographic sort
  (numpy lexsort); it is embedded as a stable insertion sort.  pandas groupby
  iterates groups in ascending sorted key order, missing keys last
  (dropna=False keeps the missing-key group), keeping the frame order inside
  each group; it is embedded accordingly.
- Python string operations used by the code (.upper/.lower/.strip/.split,
  substring membership) are embedded character-wise over the ASCII range,
  which is the range the data and the claims exercise.
- hashlib.sha1 is embedded as a full SHA-1 implementation over the UTF-8
  bytes of the key string, producing the lowercase hex digest.
-/

/-! ## Character and string helpers (Python string semantics) -/

/-- Python str.lower for one character, ASCII range. -/
def pyLowerChar (c : Char) : Char :=
  if 'A' ≤ c ∧ c ≤ 'Z' then Char.ofNat (c.toNat + 32) else c

/-- Python str.upper for one character, ASCII range. -/
def pyUpperChar (c : Char) : Char :=
  if 'a' ≤ c ∧ c ≤ 'z' then Char.ofNat (c.toNat - 32) else c

/-- Python str.lower. -/
def pyLower (s : String) : String := String.mk (s.data.map pyLowerChar)

/-- Python str.upper. -/
def pyUpper (s : String) : String := String.mk (s.data.map pyUpperChar)

/-- Python str.strip / str.split whitespace class. -/
def pyIsSpace (c : Char) : Bool :=
  c = ' ' ∨ c = '\t' ∨ c = '\n' ∨ c = '\r' ∨ c.toNat = 11 ∨ c.toNat = 12

/-- Python str.strip (no argument): drop leading and trailing whitespace. -/
def pyStrip (s : String) : String :=
  String.mk (((s.data.dropWhile pyIsSpace).reverse.dropWhile pyIsSpace).reverse)

/-- Whitespace tokenizer behind Python str.split(): runs of whitespace
separate tokens, empty tokens are dropped.  First argument is the reversed
current token accumulator. -/
def wsTokensAux (acc : List Char) : List Char → List (List Char)
  | [] => if acc = [] then [] else [acc.reverse]
  | c :: cs =>
      if pyIsSpace c then
        (if acc = [] then wsTokensAux [] cs else acc.reverse :: wsTokensAux [] cs)
      else wsTokensAux (c :: acc) cs

/-- Python " ".join(s.split()): collapse whitespace runs to single spaces and
trim the ends. -/
def pyNormWs (s : String) : String :=
  String.mk (List.intercalate [' '] (wsTokensAux [] s.data))

/-- Whether the pattern is a prefix of the character list. -/
def startsWithL : List Char → List Char → Bool
  | [], _ => true
  | _ :: _, [] => false
  | p :: ps, c :: cs => p = c && startsWithL ps cs

/-- Whether the pattern occurs as a contiguous sublist. -/
def containsL (pat : List Char) : List Char → Bool
  | [] => startsWithL pat []
  | c :: cs => startsWithL pat (c :: cs) || containsL pat cs

/-- Python "pat in s" substring test. -/
def containsSub (s pat : String) : Bool := containsL pat.data s.data

/-- Python str.zfill-style left zero padding to the given width. -/
def zfill (width : Nat) (s : String) : String :=
  String.mk (List.replicate (width - s.data.length) '0' ++ s.data)

/-- Python s.replace("-", ""): remove every dash. -/
def stripDashes (s : String) : String :=
  String.mk (s.data.filter (fun c => !(c = '-')))

/-! ## Stable sorting, first-occurrence deduplication -/

/-- Insert a into a list sorted by the boolean preorder le, after every
element strictly preferred to a, before the first element that is not.  This
is the stable placement: among le-equal elements the inserted (originally
earlier) element comes first. -/
def insertOrd (le : α → α → Bool) (a : α) : List α → List α
  | [] => [a]
  | b :: l => if le b a && !(le a b) then b :: insertOrd le a l else a :: b :: l

/-- Stable insertion sort by a boolean preorder; embeds pandas sort_values
(numpy lexsort), which is stable. -/
def sortBy (le : α → α → Bool) : List α → List α
  | [] => []
  | a :: l => insertOrd le a (sortBy le l)

/-- Keep the first occurrence of each key, dropping later duplicates; seen is
the set of keys already emitted.  Embeds DataFrame.drop_duplicates(keep="first"). -/
def dedupByAux (f : α → β) [DecidableEq β] (seen : List β) : List α → List α
  | [] => []
  | a :: l =>
      if f a ∈ seen then dedupByAux f seen l
      else a :: dedupByAux f (f a :: seen) l

/-- First-occurrence deduplication by key. -/
def dedupBy (f : α → β) [DecidableEq β] (l : List α) : List α := dedupByAux f [] l

/-! ## SHA-1 (hashlib.sha1, lowercase hexdigest) -/

/-- Truncate to a 32-bit word. -/
def w32 (n : Nat) : Nat := n % 4294967296

/-- Rotate a 32-bit word left by s bits. -/
def rotl32 (s n : Nat) : Nat := w32 ((n <<< s) + (n >>> (32 - s)))

/-- SHA-1 round function. -/
def sha1F (i b c d : Nat) : Nat :=
  if i < 20 then (b &&& c) ||| ((b ^^^ 4294967295) &&& d)
  else if i < 40 then b ^^^ c ^^^ d
  else if i < 60 then (b &&& c) ||| (b &&& d) ||| (c &&& d)
  else b ^^^ c ^^^ d

/-- SHA-1 round constants. -/
def sha1K (i : Nat) : Nat :=
  if i < 20 then 1518500249
  else if i < 40 then 1859775393
  else if i < 60 then 2400959708
  else 3395469782

/-- Extend the message schedule by k words; rws holds the schedule produced so
far, most recent word first. -/
def schedExtend : Nat → List Nat → List Nat
  | 0, rws => rws
  | k + 1, rws =>
      schedExtend k
        (rotl32 1 ((rws.getD 2 0) ^^^ (rws.getD 7 0) ^^^ (rws.getD 13 0) ^^^ (rws.getD 15 0)) :: rws)

/-- The 80 SHA-1 rounds over a schedule, starting at round index i. -/
def sha1Rounds : List Nat → Nat → Nat × Nat × Nat × Nat × Nat → Nat × Nat × Nat × Nat × Nat
  | [], _, st => st
  | w :: ws, i, (a, b, c, d, e) =>
      sha1Rounds ws (i + 1)
        (w32 (rotl32 5 a + sha1F i b c d + e + sha1K i + w), a, rotl32 30 b, c, d)

/-- Compress one 16-word block into the running state. -/
def sha1Compress (st : Nat × Nat × Nat × Nat × Nat) (ws16 : List Nat) :
    Nat × Nat × Nat × Nat × Nat :=
  let sched := (schedExtend 64 ws16.reverse).reverse
  let r := sha1Rounds sched 0 st
  (w32 (st.1 + r.1), w32 (st.2.1 + r.2.1), w32 (st.2.2.1 + r.2.2.1),
   w32 (st.2.2.2.1 + r.2.2.2.1), w32 (st.2.2.2.2 + r.2.2.2.2))

/-- Fold the compression over every 16-word block. -/
def sha1Blocks (st : Nat × Nat × Nat × Nat × Nat) :
    List Nat → Nat × Nat × Nat × Nat × Nat
  | w0 :: w1 :: w2 :: w3 :: w4 :: w5 :: w6 :: w7 ::
    w8 :: w9 :: w10 :: w11 :: w12 :: w13 :: w14 :: w15 :: rest =>
      sha1Blocks
        (sha1Compress st [w0, w1, w2, w3, w4, w5, w6, w7, w8, w9, w10, w11, w12, w13, w14, w15])
        rest
  | _ => st

/-- Big-endian byte expansion of n to exactly k bytes. -/
def beBytes : Nat → Nat → List Nat
  | 0, _ => []
  | k + 1, n => beBytes k (n / 256) ++ [n % 256]

/-- Pack bytes into big-endian 32-bit words (length a multiple of 4). -/
def bytesToWords : List Nat → List Nat
  | b0 :: b1 :: b2 :: b3 :: rest =>
      (((b0 * 256 + b1) * 256 + b2) * 256 + b3) :: bytesToWords rest
  | _ => []

/-- UTF-8 encoding of one character. -/
def utf8Char (c : Char) : List Nat :=
  let n := c.toNat
  if n < 128 then [n]
  else if n < 2048 then [192 + n / 64, 128 + n % 64]
  else if n < 65536 then [224 + n / 4096, 128 + (n / 64) % 64, 128 + n % 64]
  else [240 + n / 262144, 128 + (n / 4096) % 64, 128 + (n / 64) % 64, 128 + n % 64]

/-- UTF-8 bytes of a string. -/
def strBytes (s : String) : List Nat :=
  s.data.foldr (fun c acc => utf8Char c ++ acc) []

/-- SHA-1 message padding: 0x80, zeros to 56 mod 64, 8-byte big-endian bit
length. -/
def sha1Pad (msg : List Nat) : List Nat :=
  msg ++ 128 :: List.replicate ((119 - msg.length % 64) % 64) 0 ++ beBytes 8 (8 * msg.length)

/-- Lowercase hex digit. -/
def hexDigit (n : Nat) : Char := Char.ofNat (if n < 10 then 48 + n else 87 + n)

/-- Exactly k lowercase hex digits of n, most significant first. -/
def hexFixed : Nat → Nat → List Char
  | 0, _ => []
  | k + 1, n => hexFixed k (n / 16) ++ [hexDigit (n % 16)]

/-- hashlib.sha1(s.encode("utf-8")).hexdigest(). -/
def sha1Hex (s : String) : String :=
  let st := sha1Blocks (1732584193, 4023233417, 2562383102, 271733878, 3285377520)
    (bytesToWords (sha1Pad (strBytes s)))
  String.mk (hexFixed 8 st.1 ++ hexFixed 8 st.2.1 ++ hexFixed 8 st.2.2.1 ++
    hexFixed 8 st.2.2.2.1 ++ hexFixed 8 st.2.2.2.2)

/-! ## Python value rendering used inside the fingerprint key -/

/-- date.isoformat() for a day number (days since 1970-01-01), via the
standard civil-from-days conversion. -/
def dateIso (d : ℤ) : String :=
  let z := d + 719468
  let era := z.fdiv 146097
  let doe := (z - era * 146097).toNat
  let yoe := (doe - doe / 1460 + doe / 36524 - doe / 146096) / 365
  let doy := doe - (365 * yoe + yoe / 4 - yoe / 100)
  let mp := (5 * doy + 2) / 153
  let day := doy - (153 * mp + 2) / 5 + 1
  let m : ℤ := (mp : ℤ) + (if mp < 10 then 3 else -9)
  let y : ℤ := (yoe : ℤ) + era * 400 + (if m ≤ 2 then 1 else 0)
  zfill 4 (toString y) ++ "-" ++ zfill 2 (toString m) ++ "-" ++ zfill 2 (toString day)

/-- Python str() of a float, modelled on the exact rational: integral values
render as "n.0", finite decimal expansions render exactly; the shortest-repr
artifacts of binary floats are outside the model (no claim depends on them). -/
def decimalStr (q : ℚ) : String :=
  let sign := if q.num < 0 then "-" else ""
  let n := q.num.natAbs
  match (List.range 18).find? (fun k => 10 ^ k % q.den = 0) with
  | some 0 => sign ++ toString n ++ ".0"
  | some k =>
      let scaled := n * (10 ^ k / q.den)
      sign ++ toString (scaled / 10 ^ k) ++ "." ++ zfill k (toString (scaled % 10 ^ k))
  | none => sign ++ toString n ++ "/" ++ toString q.den

/-- The f-string fragment for an optional numeric field: Python
"{x or ''}" renders None and 0.0 both as the empty string (0.0 is falsy). -/
def pyNumSer (x : Option ℚ) : String :=
  match x with
  | none => ""
  | some q => if q = 0 then "" else decimalStr q

/-- The f-string fragment for the optional trade date: isoformat when present
(date objects are always truthy), empty otherwise. -/
def pyDateSer (x : Option ℤ) : String :=
  match x with
  | some d => dateIso d
  | none => ""

/-! ## merge.py: fingerprint and reconciliation pipeline -/

/-- merge.sha1_event_id: SHA-1 over the pipe-joined key
ticker|insider|trade_date|shares|price|txn_type|source.  Note the source
applies no case normalization to any field; "insider or two-quotes" maps None
to the empty string. -/
def sha1_event_id (ticker : String) (insider : Option String) (trade_date : Option ℤ)
    (shares price : Option ℚ) (txn_type source : String) : String :=
  sha1Hex (ticker ++ "|" ++ insider.getD "" ++ "|" ++ pyDateSer trade_date ++ "|" ++
    pyNumSer shares ++ "|" ++ pyNumSer price ++ "|" ++ txn_type ++ "|" ++ source)

/-- models.TransactionRecord, after records_to_df type normalization: dates as
day numbers, numerics as rationals, NaN as none.  Fields that the dataclass
declares non-optional (ticker, transaction_type, source, source_url,
confidence, event_id) are plain strings. -/
structure TransactionRecord where
  ticker : String
  company_name : Option String
  insider_name : Option String
  role_relation : Option String
  transaction_type : String
  trade_date : Option ℤ
  filing_date : Option ℤ
  shares : Option ℚ
  price : Option ℚ
  value_usd : Option ℚ
  sec_link : Option String
  source : String
  source_url : String
  confidence : String
  event_id : String
deriving DecidableEq

/-- merge._confidence_rank: map the upper-cased, stripped label through
the dictionary HIGH 3, MED 2, LOW 1, default 0; higher is better. -/
def _confidence_rank (x : Option String) : Nat :=
  let u := pyStrip (pyUpper (x.getD ""))
  if u = "HIGH" then 3 else if u = "MED" then 2 else if u = "LOW" then 1 else 0

/-- The _conf helper column. -/
def confRank (r : TransactionRecord) : Nat := _confidence_rank (some r.confidence)

/-- The _has_sec helper column: sec_link (NaN as empty) contains "sec.gov",
case-insensitively. -/
def hasSec (r : TransactionRecord) : Nat :=
  if containsSub (pyLower (r.sec_link.getD "")) "sec.gov" then 1 else 0

/-- The pair (_conf, _has_sec) used by both sorts of the pipeline. -/
def confKey (r : TransactionRecord) : Nat × Nat := (confRank r, hasSec r)

/-- Lexicographic order on natural pairs. -/
def natPairLe (p q : Nat × Nat) : Bool :=
  decide (p.1 < q.1 ∨ (p.1 = q.1 ∧ p.2 ≤ q.2))

/-- sort_values(["_conf", "_has_sec"], ascending=False): stable descending
lexicographic sort on (_conf, _has_sec). -/
def sortConf (l : List TransactionRecord) : List TransactionRecord :=
  sortBy (fun a b => natPairLe (confKey b) (confKey a)) l

/-- Step 1 of merge_and_dedupe: conf-descending sort, then
drop_duplicates(subset=["event_id"], keep="first"). -/
def dedupeExact (l : List TransactionRecord) : List TransactionRecord :=
  dedupBy (·.event_id) (sortConf l)

/-- merge.norm_insider: " ".join(str(x or "").strip().lower().split()). -/
def norm_insider (x : Option String) : String := pyNormWs (pyLower (pyStrip (x.getD "")))

/-- numpy round-half-to-even of a rational (Series.round(0)). -/
def roundHalfEven (q : ℚ) : ℤ :=
  let n := q.num
  let d : ℤ := (q.den : ℤ)
  let f := n.fdiv d
  let r := n.fmod d
  if 2 * r < d then f
  else if d < 2 * r then f + 1
  else if f.fmod 2 = 0 then f else f + 1

/-- The groupby key (ticker, _ins, _shares_r); a NaN shares value is a key of
its own (dropna=False). -/
def bucketKey (r : TransactionRecord) : String × String × Option ℤ :=
  (r.ticker, norm_insider r.insider_name, r.shares.map roundHalfEven)

/-- Code-point order on character lists (Python string comparison). -/
def chLe : List Char → List Char → Bool
  | [], _ => true
  | _ :: _, [] => false
  | a :: as, b :: bs => if a < b then true else if b < a then false else chLe as bs

/-- Code-point order on strings. -/
def strLe (a b : String) : Bool := chLe a.data b.data

/-- Ascending order on optional integers with the missing value last
(pandas na_position="last"). -/
def optIntLe : Option ℤ → Option ℤ → Bool
  | none, none => true
  | none, some _ => false
  | some _, none => true
  | some x, some y => decide (x ≤ y)

/-- Lexicographic ascending order on groupby keys, missing shares last:
the group iteration order of pandas groupby(sort=True, dropna=False). -/
def keyLe (p q : String × String × Option ℤ) : Bool :=
  if p.1 = q.1 then
    (if p.2.1 = q.2.1 then optIntLe p.2.2 q.2.2 else strLe p.2.1 q.2.1)
  else strLe p.1 q.1

/-- The distinct groupby keys in iteration order. -/
def groupKeys (l : List TransactionRecord) : List (String × String × Option ℤ) :=
  sortBy keyLe (dedupBy id (l.map bucketKey))

/-- The rows of one group, in frame order. -/
def bucketOf (l : List TransactionRecord) (k : String × String × Option ℤ) :
    List TransactionRecord :=
  l.filter (fun r => decide (bucketKey r = k))

/-- sort_values(["_td", "_conf"], ascending=[True, False]) inside a bucket:
trade date ascending with missing dates last, then confidence descending;
stable. -/
def bucketSortLe (a b : TransactionRecord) : Bool :=
  if a.trade_date = b.trade_date then decide (confRank b ≤ confRank a)
  else optIntLe a.trade_date b.trade_date

/-- The sorted bucket the anchor walk runs over. -/
def sortBucket (g : List TransactionRecord) : List TransactionRecord :=
  sortBy bucketSortLe g

/-- The absorption test of the anchor walk: both dates present and at most
one day apart; any missing date refuses the match. -/
def nearAnchor (a r : TransactionRecord) : Bool :=
  match a.trade_date, r.trade_date with
  | some x, some y => decide ((y - x).natAbs ≤ 1)
  | _, _ => false

/-- The single-pass mark-used anchor walk of merge_and_dedupe (the used array
of the source): the first unused row anchors a cluster and absorbs every
later unused row passing nearAnchor against the anchor itself.  Since the
test never depends on what was already absorbed, removing absorbed rows and
recursing is the same walk.  Fuel is the list length (each step consumes at
least the anchor). -/
def clusterWalkAux : Nat → List TransactionRecord → List (List TransactionRecord)
  | 0, _ => []
  | _, [] => []
  | fuel + 1, a :: rest =>
      (a :: rest.filter (nearAnchor a)) ::
        clusterWalkAux fuel (rest.filter (fun r => !(nearAnchor a r)))

/-- The clusters of one sorted bucket. -/
def clusterWalk (g : List TransactionRecord) : List (List TransactionRecord) :=
  clusterWalkAux g.length g

/-- All fuzzy clusters of the pipeline, in group order then walk order
(the groups list of the source). -/
def allClusters (l : List TransactionRecord) : List (List TransactionRecord) :=
  (groupKeys l).flatMap (fun k => clusterWalk (sortBucket (bucketOf l k)))

/-- Fill a missing base field from a member (first-writer-wins: an already
present base value is kept). -/
def fillField (b m : Option α) : Option α :=
  match b with
  | some x => some x
  | none => m

/-- One fill-and-upgrade step of the in-cluster merge loop: fill every
missing column of the fill list from the member, and take the member
confidence when it ranks strictly higher.  transaction_type and source_url
are in the fill list of the source but are non-nullable strings, so their
is-None-or-NaN test never fires; ticker, insider_name, source, event_id and
confidence are not in the fill list. -/
def mergeStep (base r : TransactionRecord) : TransactionRecord :=
  { ticker := base.ticker
    company_name := fillField base.company_name r.company_name
    insider_name := base.insider_name
    role_relation := fillField base.role_relation r.role_relation
    transaction_type := base.transaction_type
    trade_date := fillField base.trade_date r.trade_date
    filing_date := fillField base.filing_date r.filing_date
    shares := fillField base.shares r.shares
    price := fillField base.price r.price
    value_usd := fillField base.value_usd r.value_usd
    sec_link := fillField base.sec_link r.sec_link
    source := base.source
    source_url := base.source_url
    confidence :=
      if _confidence_rank (some base.confidence) < _confidence_rank (some r.confidence)
      then r.confidence else base.confidence
    event_id := base.event_id }

/-- Merge one cluster: re-sort by (_conf, _has_sec) descending, take the head
as base, fold the fill-and-upgrade step over the rest. -/
def mergeCluster (c : List TransactionRecord) : List TransactionRecord :=
  match sortConf c with
  | [] => []
  | base :: rest => [rest.foldl mergeStep base]

/-- Descending order with missing values last on optional day numbers
(final sort key 1). -/
def cmpOptIntDesc (a b : Option ℤ) : Ordering :=
  match a, b with
  | none, none => .eq
  | none, some _ => .gt
  | some _, none => .lt
  | some x, some y => if y < x then .lt else if x < y then .gt else .eq

/-- Descending order with missing values last on optional rationals
(final sort key 2). -/
def cmpOptRatDesc (a b : Option ℚ) : Ordering :=
  match a, b with
  | none, none => .eq
  | none, some _ => .gt
  | some _, none => .lt
  | some x, some y => if y < x then .lt else if x < y then .gt else .eq

/-- sort_values(["trade_date", "value_usd"], ascending=[False, False],
na_position="last"). -/
def finalLe (a b : TransactionRecord) : Bool :=
  match cmpOptIntDesc a.trade_date b.trade_date with
  | .lt => true
  | .gt => false
  | .eq =>
      match cmpOptRatDesc a.value_usd b.value_usd with
      | .lt => true
      | .gt => false
      | .eq => true

/-- The final output ordering of merge_and_dedupe. -/
def finalSort (l : List TransactionRecord) : List TransactionRecord :=
  sortBy finalLe l

/-- merge.merge_and_dedupe: empty in, empty out; otherwise exact event_id
collapse keeping the best (confidence, sec-link) row, fuzzy anchor-walk
clustering per (ticker, normalized insider, rounded shares) bucket, in-cluster
fill-and-upgrade merge, and the final descending (trade_date, value_usd) sort. -/
def merge_and_dedupe (df : List TransactionRecord) : List TransactionRecord :=
  match df with
  | [] => []
  | _ => finalSort ((allClusters (dedupeExact df)).flatMap mergeCluster)

/-! ## sources/sec_edgar.py: authority resolution and filing matching.
The network and cache layers are collaborators: the ticker map and the
per-CIK submissions snapshot are injected read-only data. -/

/-- One entry of the company_tickers map: cik_str and title may be absent. -/
structure TickerInfo where
  cik_str : Option Nat
  title : Option String
deriving DecidableEq

/-- sec_edgar.EdgarFiling. -/
structure EdgarFiling where
  cik : String
  accession_no : String
  filing_date : Option ℤ
  form : Option String
  primary_doc : Option String
deriving DecidableEq

/-- The four parallel arrays of filings.recent in a submissions snapshot.
filingDates holds the result of _parse_date on each date string (a parse
failure is none). -/
structure SubRecent where
  forms : List (Option String)
  filingDates : List (Option ℤ)
  accessionNumbers : List (Option String)
  primaryDocuments : List (Option String)

/-- The injected read-only environment: the processed ticker map (keys
already upper-cased) and the submissions snapshot per CIK. -/
structure SecEnv where
  tickers : List (String × TickerInfo)
  submissions : String → SubRecent

/-- Decimal parse of a digit string (Python int of the zero-padded CIK). -/
def decToNat (l : List Char) : Nat := l.foldl (fun a c => a * 10 + (c.toNat - 48)) 0

/-- sec_edgar.ticker_to_cik: look the upper-cased, stripped ticker up in the
map; absent ticker gives (none, none); present entry without cik_str gives
(none, title); otherwise the CIK zero-padded to 10 digits and the title. -/
def ticker_to_cik (m : List (String × TickerInfo)) (ticker : String) :
    Option String × Option String :=
  match m.lookup (pyStrip (pyUpper ticker)) with
  | none => (none, none)
  | some v =>
      match v.cik_str with
      | none => (none, v.title)
      | some n => (some (zfill 10 (toString n)), v.title)

/-- The candidate filter of find_form4_filing_near: walk the common prefix of
the four arrays; skip a missing or empty form, a form other than 4 or 4/A,
and a missing or empty accession number. -/
def form4Candidates (sub : SubRecent) (cik10 : String) : List EdgarFiling :=
  let n := min (min sub.forms.length sub.filingDates.length)
               (min sub.accessionNumbers.length sub.primaryDocuments.length)
  (List.range n).filterMap fun i =>
    match sub.forms.getD i none with
    | none => none
    | some form =>
        if form = "" then none
        else if form ≠ "4" ∧ form ≠ "4/A" then none
        else
          match sub.accessionNumbers.getD i none with
          | none => none
          | some acc =>
              if acc = "" then none
              else some { cik := cik10, accession_no := acc,
                          filing_date := sub.filingDates.getD i none,
                          form := some form,
                          primary_doc := sub.primaryDocuments.getD i none }

/-- The score closure of find_form4_filing_near: absolute day distance of the
filing date to the target, 1e9 when the target or the filing date is
missing. -/
def edgarScore (target : Option ℤ) (f : EdgarFiling) : Nat :=
  match target, f.filing_date with
  | some t, some fd => (fd - t).natAbs
  | _, _ => 1000000000

/-- sec_edgar.find_form4_filing_near: no qualifying candidate gives none;
otherwise the head of the stable score-ascending sort, i.e. the first
candidate in array order attaining the minimal score.  The max_days
comparison of the source returns best on both of its branches, so the result
never depends on max_days. -/
def find_form4_filing_near (env : SecEnv) (cik10 : String) (trade_date : Option ℤ)
    (filing_date_hint : Option ℤ) (max_days : Nat) : Option EdgarFiling :=
  let candidates := form4Candidates (env.submissions cik10) cik10
  let target := filing_date_hint.or trade_date
  match sortBy (fun a b => decide (edgarScore target a ≤ edgarScore target b)) candidates with
  | [] => none
  | best :: _ =>
      if (filing_date_hint.or trade_date).isSome ∧ best.filing_date.isSome then
        some best
      else some best

/-- sec_edgar.build_filing_index_url. -/
def build_filing_index_url (cik10 accession_no : String) : String :=
  "https://www.sec.gov/Archives/edgar/data/" ++ toString (decToNat cik10.data) ++ "/" ++
    stripDashes accession_no ++ "/" ++ accession_no ++ "-index.html"

/-! ## cli.py: SEC link enrichment (the confidence classifier) -/

/-- Python truthiness of the optional title string. -/
def titleTruthy (t : Option String) : Bool :=
  match t with
  | some s => s ≠ ""
  | none => false

/-- cli.enrich_sec_links, body of the per-record loop.  Rule order of the
source: an existing archives link gives HIGH unchanged; an unresolvable
ticker gives LOW (normalizing an empty link to None, keeping a non-empty
one); a matched filing sets the index URL, HIGH within 2 days else MED
(undated cases MED), backfilling a missing filing_date; no filing found gives
LOW with the submissions landing URL.  The company_name backfill from the
registry title happens before the CIK check. -/
def enrichOne (env : SecEnv) (r : TransactionRecord) : TransactionRecord :=
  let sec_link := pyStrip (r.sec_link.getD "")
  if sec_link ≠ "" ∧ containsSub sec_link "sec.gov/Archives/" = true then
    { r with confidence := "HIGH" }
  else
    let resolved := ticker_to_cik env.tickers r.ticker
    let r1 :=
      if r.company_name = none ∧ titleTruthy resolved.2 = true then
        { r with company_name := resolved.2 }
      else r
    match resolved.1 with
    | none =>
        { r1 with sec_link := if sec_link = "" then none else r1.sec_link,
                  confidence := "LOW" }
    | some cik10 =>
        match find_form4_filing_near env cik10 r1.trade_date r1.filing_date 10 with
        | some filing =>
            let r2 := { r1 with sec_link := some (build_filing_index_url cik10 filing.accession_no) }
            let r3 :=
              match r2.filing_date.or r2.trade_date, filing.filing_date with
              | some t, some fd =>
                  { r2 with confidence := if (fd - t).natAbs ≤ 2 then "HIGH" else "MED" }
              | _, _ => { r2 with confidence := "MED" }
            if r3.filing_date = none ∧ filing.filing_date ≠ none then
              { r3 with filing_date := filing.filing_date }
            else r3
        | none =>
            { r1 with
                sec_link := some ("https://data.sec.gov/submissions/CIK" ++ cik10 ++ ".json"),
                confidence := "LOW" }

/-- cli.enrich_sec_links over a record list: every branch of the source loop
appends exactly one (possibly updated) record. -/
def enrich_sec_links (env : SecEnv) (records : List TransactionRecord) :
    List TransactionRecord :=
  records.map (enrichOne env)

/-! ## Concrete fixtures used by witnesses and counterexamples -/

/-- A LOW-confidence ACME record, trade date day 100. -/
def exLow : TransactionRecord :=
  { ticker := "ACME", company_name := none, insider_name := some "Smith Jane",
    role_relation := none, transaction_type := "Buy", trade_date := some 100,
    filing_date := none, shares := some 1000, price := none, value_usd := some 100,
    sec_link := none, source := "openinsider", source_url := "u1",
    confidence := "LOW", event_id := "a" }

/-- A HIGH-confidence duplicate one day later (same fuzzy bucket as exLow). -/
def exHigh : TransactionRecord :=
  { exLow with
    trade_date := some 101
    confidence := "HIGH"
    event_id := "b"
    value_usd := some 200 }

/-- A LOW-confidence record two days after exLow (same bucket, outside the
anchor window of exLow but inside the window of exHigh). -/
def exLow2 : TransactionRecord :=
  { exLow with trade_date := some 102, event_id := "c", value_usd := some 50 }

/-- A record in a different fuzzy bucket (other ticker). -/
def exOther : TransactionRecord := { exLow with ticker := "ZETA", event_id := "z" }

/-- Two records of the same bucket with no trade date. -/
def exUnd1 : TransactionRecord := { exLow with trade_date := none, event_id := "u1" }

/-- Second undated record of the same bucket. -/
def exUnd2 : TransactionRecord := { exLow with trade_date := none, event_id := "u2" }

/-- A record labelled MEDIUM sharing its event_id with recLOW. -/
def recMEDIUM : TransactionRecord :=
  { exLow with ticker := "DUPX", confidence := "MEDIUM", event_id := "dup" }

/-- A record labelled LOW sharing its event_id with recMEDIUM. -/
def recLOW : TransactionRecord :=
  { exLow with
    ticker := "DUPX"
    confidence := "LOW"
    event_id := "dup"
    source_url := "u2" }

/-- An empty submissions snapshot. -/
def emptySub : SubRecent :=
  { forms := [], filingDates := [], accessionNumbers := [], primaryDocuments := [] }

/-- An environment with no resolvable ticker and no filings. -/
def envEmpty : SecEnv := { tickers := [], submissions := fun _ => emptySub }

/-- Two Form-4 filings equidistant from target day 10, the earlier one (day 8)
listed first. -/
def subEarlyFirst : SubRecent :=
  { forms := [some "4", some "4"], filingDates := [some 8, some 12],
    accessionNumbers := [some "0001-11", some "0001-22"],
    primaryDocuments := [some "a.xml", some "b.xml"] }

/-- The same two filings with the later one (day 12) listed first. -/
def subLateFirst : SubRecent :=
  { forms := [some "4", some "4"], filingDates := [some 12, some 8],
    accessionNumbers := [some "0001-22", some "0001-11"],
    primaryDocuments := [some "b.xml", some "a.xml"] }

/-- Environment serving subEarlyFirst for every CIK. -/
def envEarlyFirst : SecEnv := { tickers := [], submissions := fun _ => subEarlyFirst }

/-- Environment serving subLateFirst for every CIK. -/
def envLateFirst : SecEnv := { tickers := [], submissions := fun _ => subLateFirst }

/-- The day-12 filing as constructed by the candidate filter. -/
def fLate : EdgarFiling :=
  { cik := "0000000001", accession_no := "0001-22", filing_date := some 12,
    form := some "4", primary_doc := some "b.xml" }

/-- The day-8 filing as constructed by the candidate filter. -/
def fEarly : EdgarFiling :=
  { cik := "0000000001", accession_no := "0001-11", filing_date := some 8,
    form := some "4", primary_doc := some "a.xml" }

/-- A snapshot whose only entry has a qualifying form type but no accession
number. -/
def subNoAcc : SubRecent :=
  { forms := [some "4"], filingDates := [some 5], accessionNumbers := [none],
    primaryDocuments := [some "d.xml"] }

/-- Environment serving subNoAcc. -/
def envNoAcc : SecEnv := { tickers := [], submissions := fun _ => subNoAcc }

/-- A single Form-4 filing 100 days away from target day 0 (far outside the
max_days window). -/
def subFar : SubRecent :=
  { forms := [some "4"], filingDates := [some 100],
    accessionNumbers := [some "acc-1"], primaryDocuments := [none] }

/-- Environment serving subFar. -/
def envFar : SecEnv := { tickers := [], submissions := fun _ => subFar }

/-- The far filing as constructed by the candidate filter. -/
def fFar : EdgarFiling :=
  { cik := "0000000001", accession_no := "acc-1", filing_date := some 100,
    form := some "4", primary_doc := none }

/-- A single Form-4 filing on day 7 (2 days from trade day 5). -/
def subNear : SubRecent :=
  { forms := [some "4"], filingDates := [some 7],
    accessionNumbers := [some "0001-33"], primaryDocuments := [some "x4.xml"] }

/-- Environment resolving ACME to CIK 1 and serving subNear. -/
def envAcme : SecEnv :=
  { tickers := [("ACME", { cik_str := some 1, title := some "Acme Inc" })],
    submissions := fun _ => subNear }

/-- The near filing as constructed by the candidate filter for CIK 1. -/
def fNear : EdgarFiling :=
  { cik := "0000000001", accession_no := "0001-33", filing_date := some 7,
    form := some "4", primary_doc := some "x4.xml" }

/-- An ACME record with trade day 5 and no link (reaches the filing match). -/
def rC1 : TransactionRecord :=
  { exLow with ticker := "ACME", trade_date := some 5, event_id := "c1" }

/-- A record with an unresolvable ticker carrying a non-SEC link. -/
def rBadLink : TransactionRecord :=
  { exLow with
    ticker := "ZZZZ"
    sec_link := some "http://example.com/rumor"
    event_id := "c6" }

/-- A record with an unresolvable ticker and no link. -/
def rNoLink : TransactionRecord :=
  { exLow with ticker := "ZZZZ", sec_link := none, event_id := "c6b" }

/-! ## Helper lemmas: the stable sort -/

theorem insertOrd_perm (le : α → α → Bool) (a : α) (l : List α) :
    (insertOrd le a l).Perm (a :: l) := by
  induction l with
  | nil => simp [insertOrd]
  | cons b t ih =>
      simp only [insertOrd]
      split
      · exact (ih.cons b).trans (List.Perm.swap a b t)
      · exact List.Perm.refl _

theorem sortBy_perm (le : α → α → Bool) (l : List α) : (sortBy le l).Perm l := by
  induction l with
  | nil => simp [sortBy]
  | cons a t ih => exact (insertOrd_perm le a (sortBy le t)).trans (ih.cons a)

theorem mem_sortBy (le : α → α → Bool) (l : List α) (x : α) :
    x ∈ sortBy le l ↔ x ∈ l :=
  (sortBy_perm le l).mem_iff

theorem sortBy_eq_nil_iff (le : α → α → Bool) (l : List α) :
    sortBy le l = [] ↔ l = [] := by
  constructor
  · intro h
    have := sortBy_perm le l
    rw [h] at this
    exact (List.perm_nil.mp this.symm).symm ▸ rfl
  · intro h; subst h; rfl

theorem insertOrd_pairwise (le : α → α → Bool)
    (htot : ∀ a b, le a b = true ∨ le b a = true)
    (htr : ∀ a b c, le a b = true → le b c = true → le a c = true)
    (a : α) (l : List α) (h : List.Pairwise (fun x y => le x y = true) l) :
    List.Pairwise (fun x y => le x y = true) (insertOrd le a l) := by
  induction l with
  | nil => simp [insertOrd]
  | cons b t ih =>
      rcases List.pairwise_cons.mp h with ⟨hb, ht⟩
      simp only [insertOrd]
      split
      · rename_i hcond
        rw [Bool.and_eq_true, Bool.not_eq_true'] at hcond
        refine List.pairwise_cons.mpr ⟨?_, ih ht⟩
        intro x hx
        rcases List.mem_cons.mp ((insertOrd_perm le a t).mem_iff.mp hx) with hxa | hxt
        · exact hxa ▸ hcond.1
        · exact hb x hxt
      · rename_i hcond
        rw [Bool.and_eq_true, Bool.not_eq_true'] at hcond
        push_neg at hcond
        have hab : le a b = true := by
          rcases htot a b with h1 | h1
          · exact h1
          · simpa [h1] using hcond
        refine List.pairwise_cons.mpr ⟨?_, List.pairwise_cons.mpr ⟨hb, ht⟩⟩
        intro x hx
        rcases List.mem_cons.mp hx with hxb | hxt
        · exact hxb ▸ hab
        · exact htr a b x hab (hb x hxt)

theorem sortBy_pairwise (le : α → α → Bool)
    (htot : ∀ a b, le a b = true ∨ le b a = true)
    (htr : ∀ a b c, le a b = true → le b c = true → le a c = true)
    (l : List α) :
    List.Pairwise (fun x y => le x y = true) (sortBy le l) := by
  induction l with
  | nil => simp [sortBy]
  | cons a t ih => exact insertOrd_pairwise le htot htr a (sortBy le t) ih

/-- Two sorted permutations agree when the order is antisymmetric. -/
theorem sortBy_eq_of_perm (le : α → α → Bool)
    (htot : ∀ a b, le a b = true ∨ le b a = true)
    (htr : ∀ a b c, le a b = true → le b c = true → le a c = true)
    (hanti : ∀ a b, le a b = true → le b a = true → a = b)
    (l₁ l₂ : List α) (h : l₁.Perm l₂) :
    sortBy le l₁ = sortBy le l₂ := by
  exact @List.eq_of_perm_of_sorted α (fun x y => le x y = true) ⟨hanti⟩ _ _
    (((sortBy_perm le l₁).trans h).trans (sortBy_perm le l₂).symm)
    (sortBy_pairwise le htot htr l₁)
    (sortBy_pairwise le htot htr l₂)

/-- The head of the stable sort by a numeric key is the first element of the
input attaining the minimal key. -/
theorem sortBy_head_key_min (f : α → Nat) (l : List α) (m : α) (ms : List α)
    (h : sortBy (fun a b => decide (f a ≤ f b)) l = m :: ms) :
    ∃ pre post, l = pre ++ m :: post ∧ (∀ g ∈ pre, f m < f g) ∧ ∀ g ∈ l, f m ≤ f g := by
  induction l generalizing m ms with
  | nil => simp [sortBy] at h
  | cons a t ih =>
      simp only [sortBy] at h
      cases ht : sortBy (fun a b => decide (f a ≤ f b)) t with
      | nil =>
          have htnil : t = [] := (sortBy_eq_nil_iff _ t).mp ht
          subst htnil
          simp only [sortBy, insertOrd] at h
          injection h with h1 h2
          subst h1
          refine ⟨[], [], rfl, by simp, ?_⟩
          intro g hg
          rcases List.mem_cons.mp hg with hga | hgn
          · exact hga ▸ Nat.le_refl _
          · simp at hgn
      | cons m' ms' =>
          rw [ht] at h
          rcases ih m' ms' ht with ⟨pre', post', heq, hpre, hmin⟩
          simp only [insertOrd] at h
          by_cases hlt : f m' < f a
          · have hcond : (decide (f m' ≤ f a) && !decide (f a ≤ f m')) = true := by
              simp [Nat.le_of_lt hlt, Nat.not_le.mpr hlt]
            rw [hcond] at h
            simp only [if_true, List.cons.injEq] at h
            obtain ⟨hm, _⟩ := h
            subst hm
            refine ⟨a :: pre', post', by simp [heq], ?_, ?_⟩
            · intro g hg
              rcases List.mem_cons.mp hg with hga | hgp
              · exact hga ▸ hlt
              · exact hpre g hgp
            · intro g hg
              rcases List.mem_cons.mp hg with hga | hgt
              · exact hga ▸ Nat.le_of_lt hlt
              · exact hmin g hgt
          · have hcond : (decide (f m' ≤ f a) && !decide (f a ≤ f m')) = false := by
              rcases Nat.lt_or_ge (f m') (f a) with hc | hc
              · exact absurd hc hlt
              · simp [hc]
            rw [hcond] at h
            simp only [if_false, Bool.false_eq_true, List.cons.injEq] at h
            obtain ⟨hm, _⟩ := h
            subst hm
            have ham' : f a ≤ f m' := Nat.le_of_not_lt hlt
            refine ⟨[], t, rfl, by simp, ?_⟩
            intro g hg
            rcases List.mem_cons.mp hg with hgm | hgt
            · exact hgm ▸ Nat.le_refl _
            · exact Nat.le_trans ham' (hmin g hgt)

/-! ## Helper lemmas: first-occurrence deduplication -/

theorem mem_of_mem_dedupByAux (f : α → β) [DecidableEq β] (seen : List β) (l : List α)
    (a : α) (h : a ∈ dedupByAux f seen l) : a ∈ l := by
  induction l generalizing seen with
  | nil => simp [dedupByAux] at h
  | cons b t ih =>
      simp only [dedupByAux] at h
      split at h
      · exact List.mem_cons_of_mem b (ih _ h)
      · rcases List.mem_cons.mp h with hab | hat
        · exact hab ▸ List.mem_cons_self b t
        · exact List.mem_cons_of_mem b (ih _ hat)

theorem mem_map_dedupByAux (f : α → β) [DecidableEq β] (seen : List β) (l : List α)
    (b : β) : b ∈ (dedupByAux f seen l).map f ↔ b ∈ l.map f ∧ b ∉ seen := by
  induction l generalizing seen with
  | nil => simp [dedupByAux]
  | cons a t ih =>
      simp only [dedupByAux]
      split
      · rename_i hmem
        rw [ih]
        simp only [List.map_cons, List.mem_cons]
        constructor
        · exact fun ⟨h1, h2⟩ => ⟨Or.inr h1, h2⟩
        · rintro ⟨h1 | h1, h2⟩
          · exact absurd (h1 ▸ hmem) h2
          · exact ⟨h1, h2⟩
      · rename_i hmem
        simp only [List.map_cons, List.mem_cons, ih, List.mem_cons, not_or]
        constructor
        · rintro (h1 | ⟨h1, h2, h3⟩)
          · exact ⟨Or.inl h1, h1 ▸ hmem⟩
          · exact ⟨Or.inr h1, h3⟩
        · rintro ⟨h1 | h1, h2⟩
          · exact Or.inl h1
          · by_cases hfa : b = f a
            · exact Or.inl hfa
            · exact Or.inr ⟨h1, hfa, h2⟩

theorem nodup_map_dedupByAux (f : α → β) [DecidableEq β] (seen : List β) (l : List α) :
    ((dedupByAux f seen l).map f).Nodup := by
  induction l generalizing seen with
  | nil => simp [dedupByAux]
  | cons a t ih =>
      simp only [dedupByAux]
      split
      · exact ih _
      · simp only [List.map_cons, List.nodup_cons]
        refine ⟨?_, ih _⟩
        intro hmem
        exact ((mem_map_dedupByAux f _ t (f a)).mp hmem).2 (List.mem_cons_self _ _)

theorem dedupByAux_eq_self (f : α → β) [DecidableEq β] (seen : List β) (l : List α)
    (h1 : (l.map f).Nodup) (h2 : ∀ a ∈ l, f a ∉ seen) : dedupByAux f seen l = l := by
  induction l generalizing seen with
  | nil => rfl
  | cons a t ih =>
      simp only [List.map_cons, List.nodup_cons] at h1
      simp only [dedupByAux, if_neg (h2 a (List.mem_cons_self a t))]
      congr 1
      refine ih _ h1.2 ?_
      intro x hx
      simp only [List.mem_cons, not_or]
      refine ⟨?_, h2 x (List.mem_cons_of_mem a hx)⟩
      intro hfx
      exact h1.1 (hfx ▸ List.mem_map_of_mem f hx)

theorem dedupBy_cons_ne_nil (f : α → β) [DecidableEq β] (a : α) (l : List α) :
    dedupBy f (a :: l) ≠ [] := by
  simp [dedupBy, dedupByAux]

/-! ## Helper lemmas: the code-point and groupby-key orders -/

theorem chLe_total (a b : List Char) : chLe a b = true ∨ chLe b a = true := by
  induction a generalizing b with
  | nil => left; rfl
  | cons x xs ih =>
      cases b with
      | nil => right; rfl
      | cons y ys =>
          rcases lt_trichotomy x y with h | h | h
          · left; simp [chLe, h]
          · subst h
            simpa [chLe, lt_irrefl] using ih ys
          · right; simp [chLe, h]

theorem chLe_trans (a b c : List Char) (h1 : chLe a b = true) (h2 : chLe b c = true) :
    chLe a c = true := by
  induction a generalizing b c with
  | nil => rfl
  | cons x xs ih =>
      cases b with
      | nil => simp [chLe] at h1
      | cons y ys =>
          cases c with
          | nil => simp [chLe] at h2
          | cons z zs =>
              rcases lt_trichotomy x y with h | h | h
              · rcases lt_trichotomy y z with g | g | g
                · simp [chLe, lt_trans h g]
                · subst g; simp [chLe, h]
                · exfalso; simp [chLe, lt_asymm g, g] at h2
              · subst h
                rcases lt_trichotomy x z with g | g | g
                · simp [chLe, g]
                · subst g
                  simp only [chLe, lt_irrefl, if_false] at h1 h2 ⊢
                  exact ih ys zs h1 h2
                · exfalso; simp [chLe, lt_asymm g, g] at h2
              · exfalso; simp [chLe, lt_asymm h, h] at h1

theorem chLe_antisymm (a b : List Char) (h1 : chLe a b = true) (h2 : chLe b a = true) :
    a = b := by
  induction a generalizing b with
  | nil =>
      cases b with
      | nil => rfl
      | cons y ys => simp [chLe] at h2
  | cons x xs ih =>
      cases b with
      | nil => simp [chLe] at h1
      | cons y ys =>
          rcases lt_trichotomy x y with h | h | h
          · exfalso; simp [chLe, lt_asymm h, h] at h2
          · subst h
            simp only [chLe, lt_irrefl, if_false] at h1 h2
            rw [ih ys h1 h2]
          · exfalso; simp [chLe, lt_asymm h, h] at h1

theorem strLe_total (a b : String) : strLe a b = true ∨ strLe b a = true :=
  chLe_total a.data b.data

theorem strLe_trans (a b c : String) (h1 : strLe a b = true) (h2 : strLe b c = true) :
    strLe a c = true :=
  chLe_trans a.data b.data c.data h1 h2

theorem strLe_antisymm (a b : String) (h1 : strLe a b = true) (h2 : strLe b a = true) :
    a = b :=
  String.ext (chLe_antisymm a.data b.data h1 h2)

theorem optIntLe_total (a b : Option ℤ) : optIntLe a b = true ∨ optIntLe b a = true := by
  cases a <;> cases b <;> simp [optIntLe] <;> omega

theorem optIntLe_trans (a b c : Option ℤ) (h1 : optIntLe a b = true)
    (h2 : optIntLe b c = true) : optIntLe a c = true := by
  cases a <;> cases b <;> cases c <;> simp [optIntLe] at h1 h2 ⊢ <;> omega

theorem optIntLe_antisymm (a b : Option ℤ) (h1 : optIntLe a b = true)
    (h2 : optIntLe b a = true) : a = b := by
  cases a <;> cases b <;> simp [optIntLe] at h1 h2 ⊢ <;> omega

theorem keyLe_total (p q : String × String × Option ℤ) :
    keyLe p q = true ∨ keyLe q p = true := by
  unfold keyLe
  by_cases h1 : p.1 = q.1
  · rw [if_pos h1, if_pos h1.symm]
    by_cases h2 : p.2.1 = q.2.1
    · rw [if_pos h2, if_pos h2.symm]
      exact optIntLe_total _ _
    · rw [if_neg h2, if_neg (Ne.symm h2)]
      exact strLe_total _ _
  · rw [if_neg h1, if_neg (Ne.symm h1)]
    exact strLe_total _ _

theorem keyLe_trans (p q r : String × String × Option ℤ) (h1 : keyLe p q = true)
    (h2 : keyLe q r = true) : keyLe p r = true := by
  unfold keyLe at h1 h2 ⊢
  by_cases e1 : p.1 = q.1
  · by_cases e2 : q.1 = r.1
    · have e3 : p.1 = r.1 := e1.trans e2
      rw [if_pos e1] at h1
      rw [if_pos e2] at h2
      rw [if_pos e3]
      by_cases f1 : p.2.1 = q.2.1
      · by_cases f2 : q.2.1 = r.2.1
        · have f3 : p.2.1 = r.2.1 := f1.trans f2
          rw [if_pos f1] at h1
          rw [if_pos f2] at h2
          rw [if_pos f3]
          exact optIntLe_trans _ _ _ h1 h2
        · have f3 : ¬(p.2.1 = r.2.1) := fun h => f2 (f1.symm.trans h)
          rw [if_neg f2] at h2
          rw [if_neg f3, f1]
          exact h2
      · by_cases f2 : q.2.1 = r.2.1
        · have f3 : ¬(p.2.1 = r.2.1) := fun h => f1 (h.trans f2.symm)
          rw [if_neg f1] at h1
          rw [if_neg f3, ← f2]
          exact h1
        · rw [if_neg f1] at h1
          rw [if_neg f2] at h2
          by_cases f3 : p.2.1 = r.2.1
          · exact absurd (strLe_antisymm _ _ h1 (f3 ▸ h2)) f1
          · rw [if_neg f3]
            exact strLe_trans _ _ _ h1 h2
    · have e3 : ¬(p.1 = r.1) := fun h => e2 (e1.symm.trans h)
      rw [if_neg e2] at h2
      rw [if_neg e3, e1]
      exact h2
  · by_cases e2 : q.1 = r.1
    · have e3 : ¬(p.1 = r.1) := fun h => e1 (h.trans e2.symm)
      rw [if_neg e1] at h1
      rw [if_neg e3, ← e2]
      exact h1
    · rw [if_neg e1] at h1
      rw [if_neg e2] at h2
      by_cases e3 : p.1 = r.1
      · exact absurd (strLe_antisymm _ _ h1 (e3 ▸ h2)) e1
      · rw [if_neg e3]
        exact strLe_trans _ _ _ h1 h2

theorem keyLe_antisymm (p q : String × String × Option ℤ) (h1 : keyLe p q = true)
    (h2 : keyLe q p = true) : p = q := by
  unfold keyLe at h1 h2
  by_cases e1 : p.1 = q.1
  · rw [if_pos e1] at h1
    rw [if_pos e1.symm] at h2
    by_cases e2 : p.2.1 = q.2.1
    · rw [if_pos e2] at h1
      rw [if_pos e2.symm] at h2
      have e3 : p.2.2 = q.2.2 := optIntLe_antisymm _ _ h1 h2
      obtain ⟨a1, a2, a3⟩ := p
      obtain ⟨b1, b2, b3⟩ := q
      simp only at e1 e2 e3
      rw [e1, e2, e3]
    · rw [if_neg e2] at h1
      rw [if_neg (Ne.symm e2)] at h2
      exact absurd (strLe_antisymm _ _ h1 h2) e2
  · rw [if_neg e1] at h1
    rw [if_neg (Ne.symm e1)] at h2
    exact absurd (strLe_antisymm _ _ h1 h2) e1

/-! ## Helper lemmas: in-cluster merging and the anchor walk -/

theorem confRank_mergeStep (b r : TransactionRecord) :
    confRank (mergeStep b r) = max (confRank b) (confRank r) := by
  unfold confRank mergeStep
  dsimp only
  split
  · rename_i h; omega
  · rename_i h; omega

theorem confRank_foldl_ge_base (rest : List TransactionRecord) (base : TransactionRecord) :
    confRank base ≤ confRank (rest.foldl mergeStep base) := by
  induction rest generalizing base with
  | nil => exact Nat.le_refl _
  | cons r t ih =>
      refine Nat.le_trans ?_ (ih (mergeStep base r))
      rw [confRank_mergeStep]
      omega

theorem confRank_foldl_ge_mem (rest : List TransactionRecord) (base : TransactionRecord)
    (r : TransactionRecord) (h : r ∈ rest) :
    confRank r ≤ confRank (rest.foldl mergeStep base) := by
  induction rest generalizing base with
  | nil => simp at h
  | cons a t ih =>
      rcases List.mem_cons.mp h with ha | ht
      · subst ha
        refine Nat.le_trans ?_ (confRank_foldl_ge_base t (mergeStep base r))
        rw [confRank_mergeStep]
        omega
      · exact ih (mergeStep base a) ht

/-- A record with no trade date never absorbs and is never absorbed: its
cluster is exactly itself. -/
theorem clusterWalkAux_undated_singleton (fuel : Nat) (l : List TransactionRecord)
    (c : List TransactionRecord) (r : TransactionRecord)
    (hc : c ∈ clusterWalkAux fuel l) (hr : r ∈ c) (hrd : r.trade_date = none) :
    c = [r] := by
  induction fuel generalizing l with
  | zero => simp [clusterWalkAux] at hc
  | succ fuel ih =>
      cases l with
      | nil => simp [clusterWalkAux] at hc
      | cons a rest =>
          simp only [clusterWalkAux, List.mem_cons] at hc
          rcases hc with hc | hc
          · subst hc
            rcases List.mem_cons.mp hr with hra | hrf
            · subst hra
              have hfilt : rest.filter (nearAnchor r) = [] := by
                rw [List.filter_eq_nil_iff]
                intro x _
                unfold nearAnchor
                rw [hrd]
                cases x.trade_date <;> simp
              rw [hfilt]
            · exfalso
              have := (List.mem_filter.mp hrf).2
              unfold nearAnchor at this
              rcases ha : a.trade_date with _ | x
              · rw [ha] at this; simp at this
              · rw [ha, hrd] at this; simp at this
          · exact ih _ hc

/-! ## Helper lemmas: the fuzzy pipeline under pairwise-distinct bucket keys -/

theorem bucketOf_key_singleton (l : List TransactionRecord)
    (h : (l.map bucketKey).Nodup) (r : TransactionRecord) (hr : r ∈ l) :
    bucketOf l (bucketKey r) = [r] := by
  induction l with
  | nil => simp at hr
  | cons a t ih =>
      simp only [List.map_cons, List.nodup_cons] at h
      rcases List.mem_cons.mp hr with hra | hrt
      · subst hra
        unfold bucketOf
        rw [List.filter_cons_of_pos (by simp)]
        have : t.filter (fun x => decide (bucketKey x = bucketKey r)) = [] := by
          rw [List.filter_eq_nil_iff]
          intro x hx
          simp only [decide_eq_true_eq]
          intro hkey
          exact h.1 (hkey ▸ List.mem_map_of_mem bucketKey hx)
        unfold bucketOf at this
        rw [this]
      · have hne : ¬(bucketKey a = bucketKey r) := by
          intro hkey
          exact h.1 (hkey ▸ List.mem_map_of_mem bucketKey hrt)
        unfold bucketOf
        rw [List.filter_cons_of_neg (by simp [hne])]
        exact ih h.2 hrt

theorem clusterWalk_singleton (r : TransactionRecord) :
    clusterWalk (sortBucket [r]) = [[r]] := rfl

theorem mergeCluster_singleton (r : TransactionRecord) : mergeCluster [r] = [r] := rfl

theorem mem_dedupBy_id [DecidableEq β] (l : List β) (b : β) :
    b ∈ dedupBy id l ↔ b ∈ l := by
  have := mem_map_dedupByAux (id : β → β) [] l b
  simpa using this

theorem nodup_dedupBy_id [DecidableEq β] (l : List β) : (dedupBy id l).Nodup := by
  have := nodup_map_dedupByAux (id : β → β) [] l
  simpa using this

theorem dedupBy_id_eq_self [DecidableEq β] (l : List β) (h : l.Nodup) :
    dedupBy id l = l := by
  refine dedupByAux_eq_self id [] l ?_ ?_
  · simpa using h
  · simp

theorem mem_groupKeys (l : List TransactionRecord) (k : String × String × Option ℤ) :
    k ∈ groupKeys l ↔ k ∈ l.map bucketKey := by
  unfold groupKeys
  rw [mem_sortBy, mem_dedupBy_id]

theorem nodup_groupKeys (l : List TransactionRecord) : (groupKeys l).Nodup := by
  unfold groupKeys
  exact (sortBy_perm keyLe _).symm.nodup (nodup_dedupBy_id _)

/-- Under pairwise-distinct bucket keys every bucket is a single record, each
cluster is that record alone, and the in-cluster merge returns it unchanged:
the flattened merge output is the buckets themselves. -/
theorem flatMap_clusters_of_nodup (l : List TransactionRecord)
    (h : (l.map bucketKey).Nodup) :
    (allClusters l).flatMap mergeCluster = (groupKeys l).flatMap (bucketOf l) := by
  unfold allClusters
  rw [List.flatMap_assoc]
  refine List.flatMap_congr ?_
  intro k hk
  obtain ⟨r, hrl, hrk⟩ := List.mem_map.mp ((mem_groupKeys l k).mp hk)
  subst hrk
  rw [bucketOf_key_singleton l h r hrl, clusterWalk_singleton]
  simp [mergeCluster_singleton]

theorem flatMap_bucketOf_perm (l : List TransactionRecord)
    (h : (l.map bucketKey).Nodup) :
    ((groupKeys l).flatMap (bucketOf l)).Perm l := by
  rw [List.perm_iff_count]
  intro x
  rw [List.count_flatMap]
  have hcount : ∀ k, List.count x (bucketOf l k) =
      if bucketKey x = k then List.count x l else 0 := by
    intro k
    by_cases hxk : bucketKey x = k
    · rw [if_pos hxk]
      exact List.count_filter (by simp [hxk])
    · rw [if_neg hxk, List.count_eq_zero]
      intro hx
      have := (List.mem_filter.mp hx).2
      simp only [decide_eq_true_eq] at this
      exact hxk this
  have hmapped : (groupKeys l).map (List.count x ∘ bucketOf l) =
      (groupKeys l).map (fun k => if bucketKey x = k then List.count x l else 0) :=
    List.map_congr_left (fun k _ => hcount k)
  rw [hmapped]
  have hsum : ∀ (ks : List (String × String × Option ℤ)), ks.Nodup →
      (ks.map (fun k => if bucketKey x = k then List.count x l else 0)).sum =
        if bucketKey x ∈ ks then List.count x l else 0 := by
    intro ks hks
    induction ks with
    | nil => simp
    | cons k t ih =>
        simp only [List.nodup_cons] at hks
        simp only [List.map_cons, List.sum_cons, ih hks.2, List.mem_cons]
        by_cases hk : bucketKey x = k
        · rw [if_pos hk, if_pos (Or.inl hk), if_neg (hk ▸ hks.1), Nat.add_zero]
        · rw [if_neg hk]
          by_cases hmem : bucketKey x ∈ t
          · rw [if_pos hmem, if_pos (Or.inr hmem), Nat.zero_add]
          · rw [if_neg hmem, if_neg (by tauto), Nat.zero_add]
  rw [hsum (groupKeys l) (nodup_groupKeys l)]
  by_cases hmem : bucketKey x ∈ groupKeys l
  · rw [if_pos hmem]
  · rw [if_neg hmem]
    have hxl : x ∉ l := by
      intro hx
      exact hmem ((mem_groupKeys l _).mpr (List.mem_map_of_mem bucketKey hx))
    exact (List.count_eq_zero.mpr hxl).symm

theorem nodup_eventId_dedupeExact (l : List TransactionRecord) :
    ((dedupeExact l).map (·.event_id)).Nodup :=
  nodup_map_dedupByAux (·.event_id) [] (sortConf l)

theorem dedupeExact_eq_sortConf (l : List TransactionRecord)
    (h : (l.map (·.event_id)).Nodup) : dedupeExact l = sortConf l := by
  refine dedupByAux_eq_self (·.event_id) [] (sortConf l) ?_ ?_
  · exact (((sortBy_perm _ l).map (·.event_id)).symm).nodup h
  · simp

theorem dedupeExact_perm (l : List TransactionRecord)
    (h : (l.map (·.event_id)).Nodup) : (dedupeExact l).Perm l := by
  rw [dedupeExact_eq_sortConf l h]
  exact sortBy_perm _ l

theorem dedupeExact_ne_nil (d : TransactionRecord) (ds : List TransactionRecord) :
    dedupeExact (d :: ds) ≠ [] := by
  unfold dedupeExact
  cases hs : sortConf (d :: ds) with
  | nil => exact absurd ((sortBy_eq_nil_iff _ _).mp hs) (by simp)
  | cons b bs => exact dedupBy_cons_ne_nil _ b bs

theorem groupKeys_eq_of_perm (l₁ l₂ : List TransactionRecord) (h12 : l₁.Perm l₂)
    (h : (l₁.map bucketKey).Nodup) : groupKeys l₁ = groupKeys l₂ := by
  have h2 : (l₂.map bucketKey).Nodup := (h12.map bucketKey).nodup h
  unfold groupKeys
  rw [dedupBy_id_eq_self _ h, dedupBy_id_eq_self _ h2]
  exact sortBy_eq_of_perm keyLe keyLe_total keyLe_trans keyLe_antisymm _ _
    (h12.map bucketKey)

theorem bucketOf_eq_of_perm (l₁ l₂ : List TransactionRecord) (h12 : l₁.Perm l₂)
    (h : (l₁.map bucketKey).Nodup) (k : String × String × Option ℤ)
    (hk : k ∈ l₁.map bucketKey) : bucketOf l₂ k = bucketOf l₁ k := by
  have h2 : (l₂.map bucketKey).Nodup := (h12.map bucketKey).nodup h
  obtain ⟨r, hrl, hrk⟩ := List.mem_map.mp hk
  subst hrk
  rw [bucketOf_key_singleton l₁ h r hrl,
    bucketOf_key_singleton l₂ h2 r (h12.mem_iff.mp hrl)]

/-- A nonempty batch takes the main branch of merge_and_dedupe. -/
theorem merge_and_dedupe_ne_nil_eq (l : List TransactionRecord) (h : l ≠ []) :
    merge_and_dedupe l = finalSort ((allClusters (dedupeExact l)).flatMap mergeCluster) := by
  cases l with
  | nil => exact absurd rfl h
  | cons a t => rfl

/-! ## The claims -/

/-- C3: for every input batch and every fuzzy cluster formed during merging,
the merged record confidence rank is at least the rank of every member of the
cluster (ordering HIGH over MED over LOW via _confidence_rank), hence at
least the maximum member confidence. -/
theorem claim3_confidence_monotone (df : List TransactionRecord)
    (c : List TransactionRecord) (r m : TransactionRecord)
    (hc : c ∈ allClusters (dedupeExact df)) (hr : r ∈ c)
    (hm : mergeCluster c = [m]) : confRank r ≤ confRank m := by
  unfold mergeCluster at hm
  cases hs : sortConf c with
  | nil => rw [hs] at hm; simp at hm
  | cons base rest =>
      rw [hs] at hm
      simp only [List.cons.injEq, and_true] at hm
      subst hm
      have h0 : r ∈ sortConf c := (mem_sortBy _ c r).mpr hr
      rw [hs] at h0
      rcases List.mem_cons.mp h0 with hb | hrest
      · subst hb
        exact confRank_foldl_ge_base rest r
      · exact confRank_foldl_ge_mem rest base r hrest

/-- C3 witness: the two-record ACME batch forms one cluster of both records;
the LOW member rank is bounded by the merged record rank. -/
theorem claim3_witness :
    [exLow, exHigh] ∈ allClusters (dedupeExact [exLow, exHigh]) ∧
    mergeCluster [exLow, exHigh] = [mergeStep exHigh exLow] ∧
    confRank exLow ≤ confRank (mergeStep exHigh exLow) :=
  ⟨by decide, by decide,
    claim3_confidence_monotone [exLow, exHigh] [exLow, exHigh] exLow
      (mergeStep exHigh exLow) (by decide) (by decide) (by decide)⟩

/-- C5 counterexample: two records of the same fuzzy bucket, both with a
missing trade_date, are NOT clustered with each other: the walk emits two
singleton clusters, against the spec sentence that missing-date records are
clustered with other missing-date records of their bucket. -/
theorem claim5_counterexample :
    bucketKey exUnd1 = bucketKey exUnd2 ∧ exUnd1 ≠ exUnd2 ∧
    exUnd1.trade_date = none ∧ exUnd2.trade_date = none ∧
    allClusters [exUnd1, exUnd2] = [[exUnd1], [exUnd2]] :=
  ⟨by decide, by decide, by decide, by decide, by decide⟩

/-- C5 as amended: in the fuzzy-clustering pass a record with a missing
trade_date is never placed in a cluster with ANY other record (dated or
undated): every cluster containing an undated record is a singleton.  The
first half of the original claim (undated never merged with dated) follows;
the second half (undated clustered with each other) is refuted by the
counterexample. -/
theorem claim5_undated_singleton (df : List TransactionRecord)
    (c : List TransactionRecord) (r : TransactionRecord)
    (hc : c ∈ allClusters (dedupeExact df)) (hr : r ∈ c)
    (hrd : r.trade_date = none) : c = [r] := by
  unfold allClusters at hc
  rw [List.mem_flatMap] at hc
  obtain ⟨k, -, hck⟩ := hc
  exact clusterWalkAux_undated_singleton _ _ c r hck hr hrd

/-- C5 witness: a concrete undated record forms the singleton cluster the
amended claim predicts, inside a batch that also has a dated record. -/
theorem claim5_witness :
    [exUnd1] ∈ allClusters (dedupeExact [exUnd1, exLow]) ∧
    exUnd1.trade_date = none ∧ ([exUnd1] : List TransactionRecord) = [exUnd1] :=
  ⟨by decide, by decide,
    claim5_undated_singleton [exUnd1, exLow] [exUnd1] exUnd1 (by decide) (by decide)
      (by decide)⟩

/-- C9: the fingerprint serializes 0.0 and None identically (Python
"x or two quotes" is empty for both, 0.0 being falsy), so zero and missing
shares (and prices) produce identical digests; and two records sharing an
event_id collapse to one in the exact-dedupe pass. -/
theorem claim9_zero_missing_conflation :
    (∀ (ticker : String) (insider : Option String) (td : Option ℤ)
      (price : Option ℚ) (txn src : String),
      sha1_event_id ticker insider td (some 0) price txn src =
        sha1_event_id ticker insider td none price txn src) ∧
    (∀ (ticker : String) (insider : Option String) (td : Option ℤ)
      (shares : Option ℚ) (txn src : String),
      sha1_event_id ticker insider td shares (some 0) txn src =
        sha1_event_id ticker insider td shares none txn src) ∧
    (∀ r1 r2 : TransactionRecord, r1.event_id = r2.event_id →
      (dedupeExact [r1, r2]).length = 1) := by
  refine ⟨?_, ?_, ?_⟩
  · intro ticker insider td price txn src
    simp [sha1_event_id, pyNumSer]
  · intro ticker insider td shares txn src
    simp [sha1_event_id, pyNumSer]
  · intro r1 r2 h
    have h2 : ∀ a b : TransactionRecord, a.event_id = b.event_id →
        (dedupBy (·.event_id) [a, b]).length = 1 := by
      intro a b hab
      simp [dedupBy, dedupByAux, hab]
    unfold dedupeExact sortConf
    simp only [sortBy, insertOrd]
    split
    · exact h2 r2 r1 h.symm
    · exact h2 r1 r2 h

/-- C10: the confidence ranking recognizes only the exact labels HIGH, MED,
LOW after upper-casing and stripping; anything else, MEDIUM included, ranks
0, strictly below LOW, so in the exact event_id dedupe a MEDIUM row loses to
a LOW row with the same event_id. -/
theorem claim10_confidence_rank_labels :
    (∀ s : String, pyStrip (pyUpper s) ∉ (["HIGH", "MED", "LOW"] : List String) →
      _confidence_rank (some s) = 0) ∧
    _confidence_rank (some "MEDIUM") = 0 ∧
    _confidence_rank (some "LOW") = 1 ∧
    _confidence_rank (some "MEDIUM") < _confidence_rank (some "LOW") ∧
    dedupeExact [recMEDIUM, recLOW] = [recLOW] := by
  refine ⟨?_, by decide, by decide, by decide, by decide⟩
  intro s h
  simp only [List.mem_cons, List.not_mem_nil, or_false, not_or] at h
  obtain ⟨n1, n2, n3⟩ := h
  simp [_confidence_rank, n1, n2, n3]

/-- C10 witness: a label outside the table, here the string BOGUS, ranks 0. -/
theorem claim10_witness :
    pyStrip (pyUpper "BOGUS") ∉ (["HIGH", "MED", "LOW"] : List String) ∧
    _confidence_rank (some "BOGUS") = 0 :=
  ⟨by decide, claim10_confidence_rank_labels.1 "BOGUS" (by decide)⟩

/-- C4 counterexample: merge_and_dedupe is not idempotent.  Records on days
100 (LOW), 101 (HIGH) and 102 (LOW) of one bucket: the day-100 anchor absorbs
day 101 but not day 102; the merged cluster keeps the HIGH base date 101,
which on a second run is within one day of 102, so the second application
merges further (two rows become one). -/
theorem claim4_counterexample :
    (merge_and_dedupe [exLow, exHigh, exLow2]).length = 2 ∧
    (merge_and_dedupe (merge_and_dedupe [exLow, exHigh, exLow2])).length = 1 ∧
    merge_and_dedupe (merge_and_dedupe [exLow, exHigh, exLow2]) ≠
      merge_and_dedupe [exLow, exHigh, exLow2] :=
  ⟨by decide, by decide, by decide⟩

/-- C4 as amended: merge_and_dedupe is idempotent on batches whose exact-
dedupe survivors occupy pairwise-distinct fuzzy buckets (so every cluster is
a single record); in general a second application can merge further, as the
counterexample shows. -/
theorem claim4_idempotent_on_distinct_buckets (df : List TransactionRecord)
    (h : ((dedupeExact df).map bucketKey).Nodup) :
    merge_and_dedupe (merge_and_dedupe df) = merge_and_dedupe df := by
  cases hdf : df with
  | nil => rfl
  | cons d ds =>
      rw [← hdf]
      have hdfne : df ≠ [] := by rw [hdf]; exact List.cons_ne_nil d ds
      have hne : dedupeExact df ≠ [] := by rw [hdf]; exact dedupeExact_ne_nil d ds
      have hout : merge_and_dedupe df =
          finalSort ((groupKeys (dedupeExact df)).flatMap (bucketOf (dedupeExact df))) := by
        rw [merge_and_dedupe_ne_nil_eq df hdfne, flatMap_clusters_of_nodup _ h]
      rw [hout]
      have hperm : ((groupKeys (dedupeExact df)).flatMap (bucketOf (dedupeExact df))).Perm
          (dedupeExact df) := flatMap_bucketOf_perm _ h
      have houtperm :
          (finalSort ((groupKeys (dedupeExact df)).flatMap (bucketOf (dedupeExact df)))).Perm
            (dedupeExact df) := (sortBy_perm finalLe _).trans hperm
      have houtne :
          finalSort ((groupKeys (dedupeExact df)).flatMap (bucketOf (dedupeExact df))) ≠ [] := by
        intro hnil
        rw [hnil] at houtperm
        exact hne (List.perm_nil.mp houtperm.symm)
      have hSevent : ((dedupeExact df).map (·.event_id)).Nodup :=
        nodup_eventId_dedupeExact df
      have houtevent :
          ((finalSort ((groupKeys (dedupeExact df)).flatMap
            (bucketOf (dedupeExact df)))).map (·.event_id)).Nodup :=
        ((houtperm.map (·.event_id)).symm).nodup hSevent
      have hS2perm :
          (dedupeExact (finalSort ((groupKeys (dedupeExact df)).flatMap
            (bucketOf (dedupeExact df))))).Perm (dedupeExact df) :=
        (dedupeExact_perm _ houtevent).trans houtperm
      have hS2nodup :
          ((dedupeExact (finalSort ((groupKeys (dedupeExact df)).flatMap
            (bucketOf (dedupeExact df))))).map bucketKey).Nodup :=
        ((hS2perm.map bucketKey).symm).nodup h
      rw [merge_and_dedupe_ne_nil_eq _ houtne, flatMap_clusters_of_nodup _ hS2nodup]
      have hGK : groupKeys (dedupeExact (finalSort ((groupKeys (dedupeExact df)).flatMap
          (bucketOf (dedupeExact df))))) = groupKeys (dedupeExact df) :=
        (groupKeys_eq_of_perm _ _ hS2perm.symm h).symm
      rw [hGK]
      congr 1
      refine List.flatMap_congr ?_
      intro k hk
      exact bucketOf_eq_of_perm _ _ hS2perm.symm h k ((mem_groupKeys _ k).mp hk)

/-- C4 witness: a two-record batch in two distinct buckets satisfies the
distinct-buckets hypothesis and is a fixed point of a second application. -/
theorem claim4_witness :
    ((dedupeExact [exLow, exOther]).map bucketKey).Nodup ∧
    merge_and_dedupe (merge_and_dedupe [exLow, exOther]) =
      merge_and_dedupe [exLow, exOther] :=
  ⟨by decide, claim4_idempotent_on_distinct_buckets [exLow, exOther] (by decide)⟩

/-- C1: for a record that does not already carry an archives link, whose
ticker resolves to a CIK, and for which a filing is matched: the link is set
to the canonical index URL, the filing date is backfilled when missing, and
the confidence is HIGH when both the target date (filing_date, else
trade_date) and the filing date exist at day distance at most 2, MED when
the distance exceeds 2 or either date is missing (the undated case). -/
theorem claim1_matched_filing_confidence_window (env : SecEnv) (r : TransactionRecord)
    (cik10 : String) (title : Option String) (f : EdgarFiling)
    (h1 : ¬(pyStrip (r.sec_link.getD "") ≠ "" ∧
      containsSub (pyStrip (r.sec_link.getD "")) "sec.gov/Archives/" = true))
    (h2 : ticker_to_cik env.tickers r.ticker = (some cik10, title))
    (h3 : find_form4_filing_near env cik10 r.trade_date r.filing_date 10 = some f) :
    (enrichOne env r).sec_link = some (build_filing_index_url cik10 f.accession_no) ∧
    (enrichOne env r).filing_date = (r.filing_date).or f.filing_date ∧
    (enrichOne env r).confidence =
      (match (r.filing_date).or r.trade_date, f.filing_date with
       | some t, some fd => if (fd - t).natAbs ≤ 2 then "HIGH" else "MED"
       | _, _ => "MED") := by
  unfold enrichOne
  rw [if_neg h1]
  by_cases hcn : r.company_name = none ∧ titleTruthy (ticker_to_cik env.tickers r.ticker).2 = true
  · simp only [h2, if_pos (by rw [h2] at hcn; exact hcn)]
    rw [h3]
    rcases hrf : r.filing_date with _ | t1 <;> rcases hff : f.filing_date with _ | fd <;>
      rcases hrt : r.trade_date with _ | td <;>
        simp [hrf, hff, hrt, Option.or]
  · simp only [h2, if_neg (by rw [h2] at hcn; exact hcn)]
    rw [h3]
    rcases hrf : r.filing_date with _ | t1 <;> rcases hff : f.filing_date with _ | fd <;>
      rcases hrt : r.trade_date with _ | td <;>
        simp [hrf, hff, hrt, Option.or]

/-- C1 witness: ACME resolves to CIK 1, the matched filing is 2 days from the
trade date, so the boundary case gives HIGH, the index URL is set and the
filing date backfilled. -/
theorem claim1_witness :
    ticker_to_cik envAcme.tickers rC1.ticker = (some "0000000001", some "Acme Inc") ∧
    find_form4_filing_near envAcme "0000000001" rC1.trade_date rC1.filing_date 10 =
      some fNear ∧
    (enrichOne envAcme rC1).sec_link =
      some (build_filing_index_url "0000000001" fNear.accession_no) ∧
    (enrichOne envAcme rC1).filing_date = some 7 ∧
    (enrichOne envAcme rC1).confidence = "HIGH" := by
  have h := claim1_matched_filing_confidence_window envAcme rC1 "0000000001"
    (some "Acme Inc") fNear (by decide) (by decide) (by decide)
  refine ⟨by decide, by decide, h.1, ?_, ?_⟩
  · rw [h.2.1]; decide
  · rw [h.2.2]; decide

/-- C2 counterexample: two qualifying filings equidistant (2 days) from the
target day 10; the matcher returns whichever is listed first, so with the
earlier filing (day 8) leading the list the later filing (day 12, accession
0001-22) is NOT selected, against the claim that the later one is selected
regardless of input order. -/
theorem claim2_counterexample :
    ((8 : ℤ) - 10).natAbs = ((12 : ℤ) - 10).natAbs ∧
    (find_form4_filing_near envEarlyFirst "0000000001" (some 10) none 10).map
      (·.accession_no) = some "0001-11" ∧
    (find_form4_filing_near envEarlyFirst "0000000001" (some 10) none 10).map
      (·.accession_no) ≠ some "0001-22" ∧
    (find_form4_filing_near envLateFirst "0000000001" (some 10) none 10).map
      (·.accession_no) = some "0001-22" :=
  ⟨by decide, by decide, by decide, by decide⟩

/-- C2 as amended: the matcher returns the FIRST candidate in input-array
order attaining the minimal day-distance score; ties between equidistant
filings go to list position, not to the later filing date.  Consequently,
when the injected candidate list is ordered most-recent-first (as the EDGAR
recent arrays are served), the returned filing is at least as recent as every
equally-scored candidate, and only then does the later filing win the tie. -/
theorem claim2_first_listed_tie_break (env : SecEnv) (cik : String)
    (td hint : Option ℤ) (d : Nat) (f : EdgarFiling)
    (h : find_form4_filing_near env cik td hint d = some f) :
    (∃ pre post, form4Candidates (env.submissions cik) cik = pre ++ f :: post ∧
      (∀ g ∈ pre, edgarScore (hint.or td) f < edgarScore (hint.or td) g) ∧
      ∀ g ∈ form4Candidates (env.submissions cik) cik,
        edgarScore (hint.or td) f ≤ edgarScore (hint.or td) g) ∧
    (List.Pairwise (fun a b => optIntLe b.filing_date a.filing_date = true)
        (form4Candidates (env.submissions cik) cik) →
      ∀ g ∈ form4Candidates (env.submissions cik) cik,
        edgarScore (hint.or td) g = edgarScore (hint.or td) f →
          optIntLe g.filing_date f.filing_date = true) := by
  have hmain : ∃ pre post, form4Candidates (env.submissions cik) cik = pre ++ f :: post ∧
      (∀ g ∈ pre, edgarScore (hint.or td) f < edgarScore (hint.or td) g) ∧
      ∀ g ∈ form4Candidates (env.submissions cik) cik,
        edgarScore (hint.or td) f ≤ edgarScore (hint.or td) g := by
    simp only [find_form4_filing_near] at h
    split at h
    · simp at h
    · rename_i best tail heq
      have hbf : best = f := by split at h <;> exact Option.some.inj h
      subst hbf
      exact sortBy_head_key_min (edgarScore (hint.or td)) _ best tail heq
  refine ⟨hmain, ?_⟩
  intro hdesc g hg hscore
  obtain ⟨pre, post, hdecomp, hpre, hmin⟩ := hmain
  rw [hdecomp] at hdesc hg
  rcases List.mem_append.mp hg with hgpre | hgrest
  · exfalso
    have hlt := hpre g hgpre
    omega
  · rcases List.mem_cons.mp hgrest with hgf | hgpost
    · subst hgf
      cases g.filing_date <;> simp [optIntLe]
    · have hsuffix : List.Pairwise
          (fun a b => optIntLe b.filing_date a.filing_date = true) (f :: post) :=
        (List.pairwise_append.mp hdesc).2.1
      exact (List.pairwise_cons.mp hsuffix).1 g hgpost

/-- C2 witness: with the later filing listed first (most-recent-first order),
the returned filing heads a decomposition whose prefix scores strictly worse,
and it is at least as recent as the equally-scored day-8 candidate. -/
theorem claim2_witness :
    find_form4_filing_near envLateFirst "0000000001" (some 10) none 10 = some fLate ∧
    (∃ pre post,
      form4Candidates (envLateFirst.submissions "0000000001") "0000000001" =
        pre ++ fLate :: post ∧
      (∀ g ∈ pre, edgarScore ((none : Option ℤ).or (some 10)) fLate <
        edgarScore ((none : Option ℤ).or (some 10)) g) ∧
      ∀ g ∈ form4Candidates (envLateFirst.submissions "0000000001") "0000000001",
        edgarScore ((none : Option ℤ).or (some 10)) fLate ≤
          edgarScore ((none : Option ℤ).or (some 10)) g) ∧
    edgarScore ((none : Option ℤ).or (some 10)) fEarly =
      edgarScore ((none : Option ℤ).or (some 10)) fLate ∧
    optIntLe fEarly.filing_date fLate.filing_date = true :=
  ⟨by decide,
    (claim2_first_listed_tie_break envLateFirst "0000000001" (some 10) none 10 fLate
      (by decide)).1,
    by decide,
    (claim2_first_listed_tie_break envLateFirst "0000000001" (some 10) none 10 fLate
      (by decide)).2 (by decide) fEarly (by decide) (by decide)⟩

/-- C6 counterexample: a record with an unresolvable ticker carrying an
unreliable non-SEC link keeps that link verbatim: the code neither clears it
nor replaces it with the generic fallback (the fallback is only set on the
resolvable-but-no-filing path). -/
theorem claim6_counterexample :
    ticker_to_cik envEmpty.tickers rBadLink.ticker = (none, none) ∧
    rBadLink.sec_link = some "http://example.com/rumor" ∧
    (enrichOne envEmpty rBadLink).confidence = "LOW" ∧
    (enrichOne envEmpty rBadLink).sec_link = some "http://example.com/rumor" :=
  ⟨by decide, by decide, by decide, by decide⟩

/-- C6 as amended: an unresolvable ticker (outside the archives-link rule)
gives LOW and no exception; the link is kept as carried, with only an
empty or whitespace link normalized to None, and all other fields unchanged
except a possible company_name backfill from the registry title. -/
theorem claim6_unresolved_ticker_low (env : SecEnv) (r : TransactionRecord)
    (title : Option String)
    (h1 : ¬(pyStrip (r.sec_link.getD "") ≠ "" ∧
      containsSub (pyStrip (r.sec_link.getD "")) "sec.gov/Archives/" = true))
    (h2 : ticker_to_cik env.tickers r.ticker = (none, title)) :
    (enrichOne env r).confidence = "LOW" ∧
    (enrichOne env r).sec_link =
      (if pyStrip (r.sec_link.getD "") = "" then none else r.sec_link) ∧
    (enrichOne env r).company_name =
      (if r.company_name = none ∧ titleTruthy title = true then title
       else r.company_name) ∧
    (enrichOne env r).ticker = r.ticker ∧
    (enrichOne env r).insider_name = r.insider_name ∧
    (enrichOne env r).role_relation = r.role_relation ∧
    (enrichOne env r).transaction_type = r.transaction_type ∧
    (enrichOne env r).trade_date = r.trade_date ∧
    (enrichOne env r).filing_date = r.filing_date ∧
    (enrichOne env r).shares = r.shares ∧
    (enrichOne env r).price = r.price ∧
    (enrichOne env r).value_usd = r.value_usd ∧
    (enrichOne env r).source = r.source ∧
    (enrichOne env r).source_url = r.source_url ∧
    (enrichOne env r).event_id = r.event_id := by
  unfold enrichOne
  rw [if_neg h1]
  by_cases hcn : r.company_name = none ∧ titleTruthy (ticker_to_cik env.tickers r.ticker).2 = true
  · have hcn' : r.company_name = none ∧ titleTruthy title = true := by
      rw [h2] at hcn; exact hcn
    simp only [h2, if_pos (by rw [h2] at hcn; exact hcn)]
    simp [hcn']
  · have hcn' : ¬(r.company_name = none ∧ titleTruthy title = true) := by
      rw [h2] at hcn; exact hcn
    simp only [h2, if_neg (by rw [h2] at hcn; exact hcn)]
    simp [hcn']

/-- C6 witness: an unresolvable ticker with no link at all gives LOW and a
None link. -/
theorem claim6_witness :
    ticker_to_cik envEmpty.tickers rNoLink.ticker = (none, none) ∧
    (enrichOne envEmpty rNoLink).confidence = "LOW" ∧
    (enrichOne envEmpty rNoLink).sec_link = none := by
  have h := claim6_unresolved_ticker_low envEmpty rNoLink none (by decide) (by decide)
  refine ⟨by decide, h.1, ?_⟩
  rw [h.2.1]
  decide

set_option maxRecDepth 20000 in
/-- C7 counterexample: sha1_event_id applies no case normalization to the
ticker: the lower-case and upper-case spellings of the same ticker hash to
different fingerprints, against the spec sentence that the fingerprint
case-normalizes the ticker to upper case. -/
theorem claim7_counterexample :
    pyUpper "aapl" = "AAPL" ∧
    sha1_event_id "aapl" none none none none "Buy" "openinsider" ≠
      sha1_event_id "AAPL" none none none none "Buy" "openinsider" :=
  ⟨by decide, by decide⟩

/-- C7 as amended: the fingerprint is deterministic (repeated calls on equal
inputs agree), and it agrees with the upper-cased call only in the trivial
case that the ticker is already upper-case; it does not case-normalize. -/
theorem claim7_fingerprint_deterministic (ticker : String) (insider : Option String)
    (td : Option ℤ) (shares price : Option ℚ) (txn src : String)
    (h : pyUpper ticker = ticker) :
    sha1_event_id ticker insider td shares price txn src =
      sha1_event_id ticker insider td shares price txn src ∧
    sha1_event_id ticker insider td shares price txn src =
      sha1_event_id (pyUpper ticker) insider td shares price txn src :=
  ⟨rfl, by rw [h]⟩

/-- C7 witness: an already-upper-case ticker satisfies the fixed-point
hypothesis and the fingerprint agrees with its upper-cased call. -/
theorem claim7_witness :
    pyUpper "AAPL" = "AAPL" ∧
    sha1_event_id "AAPL" none none none none "Buy" "openinsider" =
      sha1_event_id (pyUpper "AAPL") none none none none "Buy" "openinsider" :=
  ⟨by decide,
    (claim7_fingerprint_deterministic "AAPL" none none none none "Buy" "openinsider"
      (by decide)).2⟩

/-- C8 counterexample: a snapshot whose only entry has qualifying form type 4
but a missing accession number yields no candidate and the matcher returns
none, against the claim that none is returned only when no entry of a
qualifying form type exists. -/
theorem claim8_counterexample :
    subNoAcc.forms = [some "4"] ∧
    find_form4_filing_near envNoAcc "0000000001" (some 5) none 10 = none ∧
    form4Candidates (envNoAcc.submissions "0000000001") "0000000001" = [] :=
  ⟨by decide, by decide, by decide⟩

/-- C8 as amended: the matcher returns none exactly when the candidate filter
(qualifying form type AND nonempty accession number, over the common prefix
of the four arrays) is empty; any returned filing is a candidate of minimal
score; and the result never depends on max_days, so an out-of-tolerance best
candidate is returned rather than discarded. -/
theorem claim8_best_candidate_contract (env : SecEnv) (cik : String)
    (td hint : Option ℤ) (d : Nat) :
    (find_form4_filing_near env cik td hint d = none ↔
      form4Candidates (env.submissions cik) cik = []) ∧
    (∀ f, find_form4_filing_near env cik td hint d = some f →
      f ∈ form4Candidates (env.submissions cik) cik ∧
      ∀ g ∈ form4Candidates (env.submissions cik) cik,
        edgarScore (hint.or td) f ≤ edgarScore (hint.or td) g) ∧
    ∀ d2, find_form4_filing_near env cik td hint d =
      find_form4_filing_near env cik td hint d2 := by
  refine ⟨?_, ?_, fun d2 => rfl⟩
  · simp only [find_form4_filing_near]
    split
    · rename_i heq
      have hnil := (sortBy_eq_nil_iff _ _).mp heq
      simp [hnil]
    · rename_i best tail heq
      constructor
      · intro hcontra
        split at hcontra <;> simp at hcontra
      · intro hcands
        rw [hcands] at heq
        simp [sortBy] at heq
  · intro f h
    simp only [find_form4_filing_near] at h
    split at h
    · simp at h
    · rename_i best tail heq
      have hbf : best = f := by
        split at h <;> exact Option.some.inj h
      subst hbf
      obtain ⟨pre, post, hdecomp, -, hmin⟩ :=
        sortBy_head_key_min (edgarScore (hint.or td)) _ best tail heq
      refine ⟨?_, hmin⟩
      rw [hdecomp]
      exact List.mem_append_right pre (List.mem_cons_self best post)

/-- C8 witness: the single qualifying filing 100 days from the target, far
outside max_days 10, is still returned as the minimal-score candidate. -/
theorem claim8_witness :
    find_form4_filing_near envFar "0000000001" (some 0) none 10 = some fFar ∧
    (fFar ∈ form4Candidates (envFar.submissions "0000000001") "0000000001" ∧
      ∀ g ∈ form4Candidates (envFar.submissions "0000000001") "0000000001",
        edgarScore ((none : Option ℤ).or (some 0)) fFar ≤
          edgarScore ((none : Option ℤ).or (some 0)) g) :=
  ⟨by decide,
    (claim8_best_candidate_contract envFar "0000000001" (some 0) none 10).2.1 fFar
      (by decide)⟩

/-- C9 witness: two concrete records sharing an event_id collapse to a single
row in the exact-dedupe pass. -/
theorem claim9_witness :
    recMEDIUM.event_id = recLOW.event_id ∧
    (dedupeExact [recMEDIUM, recLOW]).length = 1 :=
  ⟨by decide, claim9_zero_missing_conflation.2.2 recMEDIUM recLOW (by decide)⟩
